import Mathlib

/-!
Verification of the Blotato moderation core (src/lib/openai.ts, src/lib/constants.ts).

The TypeScript moderation module is shallowly embedded here:

* JS numbers used as probability scores are modelled as `ℚ` (the code only
  compares and maximizes scores, so exact rationals are a faithful model of
  the float comparisons at every input we reason about).
* `Date.now()` timestamps are modelled as `Int` (milliseconds), passed
  explicitly instead of read from an ambient clock.
* The process-wide `Map` cache is modelled as an association list passed in
  and returned explicitly; `Map.get`/`Map.set`/`Map.delete` become
  `mapGet`/`mapSet`/`mapDelete`.
* The `await openai.moderations.create(...)` call (together with the
  field-by-field transform of its response) is modelled by an explicit
  `Except Unit ModerationResult` parameter: `Except.ok` is a successful,
  well-typed classification, `Except.error` is a network error, timeout, or
  an exception thrown while processing the response.
* `charCodeAt` is modelled by `Char.toNat`, which agrees with JS UTF-16 code
  units on the Basic Multilingual Plane (all inputs considered here).
-/

/-! ## Category keys

The eleven moderation category keys, in the order in which they appear as
fields of the `categories` / `category_scores` object literals in the source
(this is the `Object.entries` iteration order). -/

inductive CategoryKey where
  | hate
  | hateThreatening
  | harassment
  | harassmentThreatening
  | selfHarm
  | selfHarmIntent
  | selfHarmInstructions
  | sexual
  | sexualMinors
  | violence
  | violenceGraphic
deriving DecidableEq, Repr

/-- The JS string key of each category. -/
def CategoryKey.name : CategoryKey → String
  | .hate => "hate"
  | .hateThreatening => "hate/threatening"
  | .harassment => "harassment"
  | .harassmentThreatening => "harassment/threatening"
  | .selfHarm => "self-harm"
  | .selfHarmIntent => "self-harm/intent"
  | .selfHarmInstructions => "self-harm/instructions"
  | .sexual => "sexual"
  | .sexualMinors => "sexual/minors"
  | .violence => "violence"
  | .violenceGraphic => "violence/graphic"

/-- Field order of the `categories` / `category_scores` object literals,
i.e. the `Object.entries` iteration order used by `analyzeModeration`. -/
def categoriesOrder : List CategoryKey :=
  [.hate, .hateThreatening, .harassment, .harassmentThreatening,
   .selfHarm, .selfHarmIntent, .selfHarmInstructions,
   .sexual, .sexualMinors, .violence, .violenceGraphic]

/-! ## Constants (src/lib/constants.ts, `MODERATION`) -/

namespace MODERATION

def MODEL : String := "omni-moderation-latest"

/-- `CONFIDENCE_THRESHOLD: 0.1` (written `mkRat` so the kernel can evaluate it). -/
def CONFIDENCE_THRESHOLD : ℚ := mkRat 1 10

/-- `HIGH_SENSITIVITY_THRESHOLD: 0.05` (written `mkRat` so the kernel can evaluate it). -/
def HIGH_SENSITIVITY_THRESHOLD : ℚ := mkRat 1 20

def CACHE_TTL_HOURS : Int := 1

def CATEGORIES : List String :=
  ["hate", "hate/threatening", "harassment", "harassment/threatening",
   "self-harm", "self-harm/intent", "self-harm/instructions",
   "sexual", "sexual/minors", "violence", "violence/graphic"]

def HIGH_SENSITIVITY_CATEGORIES : List String :=
  ["hate", "hate/threatening", "harassment", "harassment/threatening"]

end MODERATION

/-! ## Data model (src/lib/types.ts) -/

/-- The `categories` record of one classifier result unit: one boolean per
category (fields in source order). -/
structure CategoryFlags where
  hate : Bool
  hateThreatening : Bool
  harassment : Bool
  harassmentThreatening : Bool
  selfHarm : Bool
  selfHarmIntent : Bool
  selfHarmInstructions : Bool
  sexual : Bool
  sexualMinors : Bool
  violence : Bool
  violenceGraphic : Bool
deriving DecidableEq, Repr

def CategoryFlags.get (f : CategoryFlags) : CategoryKey → Bool
  | .hate => f.hate
  | .hateThreatening => f.hateThreatening
  | .harassment => f.harassment
  | .harassmentThreatening => f.harassmentThreatening
  | .selfHarm => f.selfHarm
  | .selfHarmIntent => f.selfHarmIntent
  | .selfHarmInstructions => f.selfHarmInstructions
  | .sexual => f.sexual
  | .sexualMinors => f.sexualMinors
  | .violence => f.violence
  | .violenceGraphic => f.violenceGraphic

/-- The `category_scores` record of one classifier result unit. -/
structure CategoryScores where
  hate : ℚ
  hateThreatening : ℚ
  harassment : ℚ
  harassmentThreatening : ℚ
  selfHarm : ℚ
  selfHarmIntent : ℚ
  selfHarmInstructions : ℚ
  sexual : ℚ
  sexualMinors : ℚ
  violence : ℚ
  violenceGraphic : ℚ
deriving DecidableEq, Repr

def CategoryScores.get (s : CategoryScores) : CategoryKey → ℚ
  | .hate => s.hate
  | .hateThreatening => s.hateThreatening
  | .harassment => s.harassment
  | .harassmentThreatening => s.harassmentThreatening
  | .selfHarm => s.selfHarm
  | .selfHarmIntent => s.selfHarmIntent
  | .selfHarmInstructions => s.selfHarmInstructions
  | .sexual => s.sexual
  | .sexualMinors => s.sexualMinors
  | .violence => s.violence
  | .violenceGraphic => s.violenceGraphic

/-- One evaluation unit of a classifier response
(`interface ModerationCategory` in src/lib/types.ts). -/
structure ModerationCategory where
  flagged : Bool
  categories : CategoryFlags
  category_scores : CategoryScores
deriving DecidableEq, Repr

/-- `interface ModerationResult` in src/lib/types.ts. -/
structure ModerationResult where
  id : String
  model : String
  results : List ModerationCategory
deriving DecidableEq, Repr

/-- The record returned by `moderateContent` / `analyzeModeration`. -/
structure ModerationAnalysis where
  isAllowed : Bool
  moderationResult : ModerationResult
  flaggedCategories : List String
  confidenceScore : ℚ
deriving DecidableEq, Repr

/-! ## analyzeModeration (src/lib/openai.ts) -/

/-- The three loop-carried variables of `analyzeModeration`. -/
structure AnalyzeState where
  flaggedCategories : List String
  maxConfidence : ℚ
  hasViolation : Bool
deriving DecidableEq, Repr

/-- The threshold selected for a category:
`isHighSensitivityCategory ? HIGH_SENSITIVITY_THRESHOLD : CONFIDENCE_THRESHOLD`. -/
def categoryThreshold (c : CategoryKey) : ℚ :=
  if MODERATION.HIGH_SENSITIVITY_CATEGORIES.contains c.name then
    MODERATION.HIGH_SENSITIVITY_THRESHOLD
  else
    MODERATION.CONFIDENCE_THRESHOLD

/-- The loop condition `flagged || score >= threshold` of `analyzeModeration`. -/
def isViolation (u : ModerationCategory) (c : CategoryKey) : Bool :=
  u.categories.get c || decide (categoryThreshold c ≤ u.category_scores.get c)

/-- One iteration of the inner `for (const [category, flagged] of categories)`
loop of `analyzeModeration`. -/
def stepCategory (u : ModerationCategory) (s : AnalyzeState) (c : CategoryKey) :
    AnalyzeState :=
  let score := u.category_scores.get c
  let maxConfidence := if s.maxConfidence < score then score else s.maxConfidence
  if isViolation u c then
    { flaggedCategories :=
        if c.name ∈ s.flaggedCategories then s.flaggedCategories
        else s.flaggedCategories ++ [c.name],
      maxConfidence := maxConfidence,
      hasViolation := true }
  else
    { s with maxConfidence := maxConfidence }

/-- One iteration of the outer `for (const result of moderationResult.results)`
loop of `analyzeModeration`. -/
def stepResult (s : AnalyzeState) (u : ModerationCategory) : AnalyzeState :=
  let s1 := if u.flagged then { s with hasViolation := true } else s
  categoriesOrder.foldl (stepCategory u) s1

/-- `analyzeModeration` from src/lib/openai.ts. -/
def analyzeModeration (moderationResult : ModerationResult) : ModerationAnalysis :=
  let final := moderationResult.results.foldl stepResult
    { flaggedCategories := [], maxConfidence := 0, hasViolation := false }
  { isAllowed := !final.hasViolation,
    moderationResult := moderationResult,
    flaggedCategories := final.flaggedCategories,
    confidenceScore := final.maxConfidence }

/-! ## Cache key (src/lib/openai.ts, `getModerationCacheKey`) -/

/-- JS `ToInt32`: reduce an integer modulo `2^32` into `[-2^31, 2^31)`. -/
def toInt32 (n : Int) : Int := (n + 2 ^ 31) % 2 ^ 32 - 2 ^ 31

/-- One iteration of the hash loop:
`hash = ((hash << 5) - hash) + char; hash = hash & hash`.
`hash << 5` coerces to int32 and shifts (i.e. `toInt32 (hash * 32)`); the
subtraction and addition are exact; `hash & hash` truncates back to int32. -/
def jsHashStep (hash : Int) (char : Char) : Int :=
  toInt32 (toInt32 (hash * 32) - hash + char.toNat)

/-- The hash loop of `getModerationCacheKey`, over the UTF-16 code units of
`content` (modelled by `Char.toNat`, exact on the BMP). -/
def jsHash (content : String) : Int :=
  content.data.foldl jsHashStep 0

/-- Digit characters used by JS `Number.prototype.toString(36)`:
`0`-`9` then lowercase `a`-`z`. -/
def digitChar36 (n : Nat) : Char :=
  if n < 10 then Char.ofNat (48 + n) else Char.ofNat (87 + n)

/-- Base-36 digits of a natural number, most significant first.  Structural
(fuel-based) recursion so that the kernel can evaluate it; `fuel = n + 1`
always suffices since the argument shrinks by a factor of 36 each step. -/
def natToBase36Aux : Nat → Nat → List Char
  | 0, _ => []
  | fuel + 1, n =>
    if n < 36 then [digitChar36 n]
    else natToBase36Aux fuel (n / 36) ++ [digitChar36 (n % 36)]

def natToBase36 (n : Nat) : String :=
  String.mk (natToBase36Aux (n + 1) n)

/-- JS `Number.prototype.toString(36)` on integral values: a leading `-` for
negative numbers, base-36 digits of the absolute value. -/
def intToString36 (i : Int) : String :=
  if i < 0 then "-" ++ natToBase36 i.natAbs else natToBase36 i.toNat

/-- `getModerationCacheKey` from src/lib/openai.ts. -/
def getModerationCacheKey (content : String) : String :=
  "moderation_" ++ intToString36 (jsHash content)

/-! ## Cache (src/lib/openai.ts) -/

/-- One value of the `moderationCache` map:
`{ result: ModerationResult; timestamp: number }`. -/
structure CacheEntry where
  result : ModerationResult
  timestamp : Int
deriving DecidableEq, Repr

/-- The `moderationCache` JS `Map`, modelled as an association list in
insertion order. -/
abbrev Cache := List (String × CacheEntry)

/-- JS `Map.prototype.get`. -/
def mapGet : Cache → String → Option CacheEntry
  | [], _ => none
  | (k, v) :: rest, key => if k = key then some v else mapGet rest key

/-- JS `Map.prototype.set`: overwrite the entry if the key is present
(keeping its position), otherwise append. -/
def mapSet : Cache → String → CacheEntry → Cache
  | [], key, v => [(key, v)]
  | (k, v0) :: rest, key, v =>
    if k = key then (key, v) :: rest else (k, v0) :: mapSet rest key v

/-- JS `Map.prototype.delete`: remove the entry for the key.  (A `Map` holds
at most one entry per key; on association lists we remove every pair with
the key so that the model is key-unique regardless of how the list was
built.) -/
def mapDelete (m : Cache) (key : String) : Cache :=
  m.filter fun p => decide (p.1 ≠ key)

/-- `isCacheValid` from src/lib/openai.ts, with `Date.now()` passed
explicitly. -/
def isCacheValid (now timestamp : Int) : Bool :=
  let cacheAgeMs := now - timestamp
  let maxAgeMs := MODERATION.CACHE_TTL_HOURS * 60 * 60 * 1000
  decide (cacheAgeMs < maxAgeMs)

/-- `getCachedModeration` from src/lib/openai.ts.  Returns the looked-up
result together with the cache after the lazy eviction of an expired entry. -/
def getCachedModeration (now : Int) (cache : Cache) (content : String) :
    Option ModerationResult × Cache :=
  let cacheKey := getModerationCacheKey content
  match mapGet cache cacheKey with
  | some cached =>
    if isCacheValid now cached.timestamp then (some cached.result, cache)
    else (none, mapDelete cache cacheKey)
  | none => (none, cache)

/-- `cacheModeration` from src/lib/openai.ts. -/
def cacheModeration (now : Int) (cache : Cache) (content : String)
    (result : ModerationResult) : Cache :=
  mapSet cache (getModerationCacheKey content) { result := result, timestamp := now }

/-! ## moderateContent (src/lib/openai.ts) -/

/-- The observable outcome of one `moderateContent` call: the returned
analysis, the cache afterwards, and whether the remote classifier call was
issued. -/
structure ModerateOutcome where
  analysis : ModerationAnalysis
  cache : Cache
  calledRemote : Bool
deriving DecidableEq, Repr

/-- `moderateContent` from src/lib/openai.ts.  `fetch` is the outcome of
`openai.moderations.create` plus the field-by-field response transform:
`Except.error` covers a network error, timeout, or an exception thrown while
processing the response, all of which land in the `catch` block.  The
function is total: the `catch` turns every failure into the conservative
fail-closed analysis instead of throwing past the boundary. -/
def moderateContent (now : Int) (fetch : Except Unit ModerationResult)
    (cache : Cache) (content : String) : ModerateOutcome :=
  match getCachedModeration now cache content with
  | (some cached, cache2) =>
    { analysis := analyzeModeration cached, cache := cache2, calledRemote := false }
  | (none, cache2) =>
    match fetch with
    | Except.ok moderationResult =>
      { analysis := analyzeModeration moderationResult,
        cache := cacheModeration now cache2 content moderationResult,
        calledRemote := true }
    | Except.error _ =>
      { analysis :=
          { isAllowed := false,
            moderationResult := { id := "error", model := MODERATION.MODEL, results := [] },
            flaggedCategories := ["error"],
            confidenceScore := 1 },
        cache := cache2,
        calledRemote := true }

/-! ## Feedback formatting (src/lib/openai.ts) -/

/-- The `displayNames` record literal of `getCategoryDisplayName`. -/
def displayNames : List (String × String) :=
  [("hate", "Hate Speech"),
   ("hate/threatening", "Threatening Hate Speech"),
   ("harassment", "Harassment"),
   ("harassment/threatening", "Threatening Harassment"),
   ("self-harm", "Self-Harm"),
   ("self-harm/intent", "Self-Harm Intent"),
   ("self-harm/instructions", "Self-Harm Instructions"),
   ("sexual", "Sexual Content"),
   ("sexual/minors", "Sexual Content Involving Minors"),
   ("violence", "Violence"),
   ("violence/graphic", "Graphic Violence")]

/-- The property names every plain object literal inherits from
`Object.prototype`, so that `displayNames[category]` resolves for them even
though they are not own keys of the record: the standard methods, the four
legacy accessor-definition methods, and the `__proto__` accessor.  Each of
their values is a function (or, for `__proto__`, the prototype object) —
truthy and not a string. -/
def objectPrototypeKeys : List String :=
  ["constructor", "hasOwnProperty", "isPrototypeOf", "propertyIsEnumerable",
   "toLocaleString", "toString", "valueOf", "__defineGetter__",
   "__defineSetter__", "__lookupGetter__", "__lookupSetter__", "__proto__"]

/-- The JS value produced by `displayNames[category] || category`: either a
string (a stored display name, or the category itself when the read yields
`undefined`), or — when `category` names a member inherited from
`Object.prototype` — that inherited member, a truthy non-string value whose
string coercion is implementation-defined. -/
inductive DisplayNameValue where
  /-- A string value: a stored display name or the fallback category. -/
  | str : String → DisplayNameValue
  /-- The `Object.prototype` member with the given property name. -/
  | protoMember : String → DisplayNameValue
deriving DecidableEq, Repr

/-- `getCategoryDisplayName` from src/lib/openai.ts:
`displayNames[category] || category`.  The property read checks the
record's own keys first, then the prototype chain; only when both miss does
it yield `undefined` and the falsy-fallback `|| category` fire (every stored
display name and every inherited prototype member is truthy, so the
fallback never fires for those). -/
def getCategoryDisplayName (category : String) : DisplayNameValue :=
  match displayNames.lookup category with
  | some name => DisplayNameValue.str name
  | none =>
    if category ∈ objectPrototypeKeys then DisplayNameValue.protoMember category
    else DisplayNameValue.str category

/-- The string coercion `Array.prototype.join` applies to each element: a
string coerces to itself; the rendering of an inherited `Object.prototype`
member (a native function, or the prototype object) is
implementation-defined and therefore taken as the parameter `protoString`. -/
def displayNameToString (protoString : String → String) :
    DisplayNameValue → String
  | DisplayNameValue.str s => s
  | DisplayNameValue.protoMember n => protoString n

/-- `formatModerationFeedback` from src/lib/openai.ts, parameterized by the
engine's rendering `protoString` of inherited prototype members (it plays no
role unless a flagged category names an `Object.prototype` member). -/
def formatModerationFeedback (protoString : String → String)
    (flaggedCategories : List String) (isAllowed : Bool) : String :=
  if isAllowed then
    "Content passed moderation checks."
  else if flaggedCategories.length = 0 then
    "Content flagged by moderation system."
  else
    "Content flagged for: " ++
      String.intercalate ", "
        (flaggedCategories.map fun c =>
          displayNameToString protoString (getCategoryDisplayName c)) ++
      ". Please revise your post."

/-! ## Helper lemmas: the `analyzeModeration` folds

The loop of `analyzeModeration` is characterized component by component:
the flagged-category list is a first-occurrence fold over the sequence of
violating (unit, category) pairs in iteration order, the confidence score a
running maximum over all scores, and the violation bit a disjunction. -/

/-- Append `x` unless it is already present — the `push`-guarded-by-
`includes` idiom of `analyzeModeration`. -/
def insertIfAbsent (l : List String) (x : String) : List String :=
  if x ∈ l then l else l ++ [x]

/-- Keep the first occurrence of every element, dropping later duplicates. -/
def dedupFirst : List String → List String
  | [] => []
  | x :: xs => x :: dedupFirst (xs.filter fun y => decide (y ≠ x))
termination_by l => l.length
decreasing_by
  simp only [List.length_cons]
  exact Nat.lt_succ_of_le (List.length_filter_le _ _)

/-- Names of the categories a single unit violates, in iteration order. -/
def unitViolations (u : ModerationCategory) : List String :=
  (categoriesOrder.filter fun c => isViolation u c).map CategoryKey.name

/-- Names of all violating (unit, category) pairs in iteration order. -/
def violationNames (m : ModerationResult) : List String :=
  m.results.flatMap unitViolations

/-- Every score of every unit, in iteration order. -/
def allScores (m : ModerationResult) : List ℚ :=
  m.results.flatMap fun u => categoriesOrder.map fun c => u.category_scores.get c

/-- The running-maximum update `if (score > maxConfidence) ...` of the loop. -/
def maxStep (a x : ℚ) : ℚ := if a < x then x else a

theorem stepCategory_maxConfidence (u : ModerationCategory) (s : AnalyzeState)
    (c : CategoryKey) :
    (stepCategory u s c).maxConfidence = maxStep s.maxConfidence (u.category_scores.get c) := by
  simp only [stepCategory, maxStep]
  split <;> rfl

theorem stepCategory_hasViolation (u : ModerationCategory) (s : AnalyzeState)
    (c : CategoryKey) :
    (stepCategory u s c).hasViolation = (s.hasViolation || isViolation u c) := by
  simp only [stepCategory]
  split <;> simp_all

theorem stepCategory_flaggedCategories (u : ModerationCategory) (s : AnalyzeState)
    (c : CategoryKey) :
    (stepCategory u s c).flaggedCategories =
      if isViolation u c then insertIfAbsent s.flaggedCategories c.name
      else s.flaggedCategories := by
  simp only [stepCategory, insertIfAbsent]
  split <;> rfl

theorem foldCat_maxConfidence (u : ModerationCategory) (cs : List CategoryKey)
    (s : AnalyzeState) :
    (cs.foldl (stepCategory u) s).maxConfidence =
      (cs.map fun c => u.category_scores.get c).foldl maxStep s.maxConfidence := by
  induction cs generalizing s with
  | nil => rfl
  | cons c cs ih =>
    simp only [List.foldl_cons, List.map_cons]
    rw [ih, stepCategory_maxConfidence]

theorem foldCat_hasViolation (u : ModerationCategory) (cs : List CategoryKey)
    (s : AnalyzeState) :
    (cs.foldl (stepCategory u) s).hasViolation =
      (s.hasViolation || cs.any fun c => isViolation u c) := by
  induction cs generalizing s with
  | nil => simp
  | cons c cs ih =>
    simp only [List.foldl_cons, List.any_cons]
    rw [ih, stepCategory_hasViolation]
    cases s.hasViolation <;> cases isViolation u c <;> simp

theorem foldCat_flaggedCategories (u : ModerationCategory) (cs : List CategoryKey)
    (s : AnalyzeState) :
    (cs.foldl (stepCategory u) s).flaggedCategories =
      ((cs.filter fun c => isViolation u c).map CategoryKey.name).foldl
        insertIfAbsent s.flaggedCategories := by
  induction cs generalizing s with
  | nil => rfl
  | cons c cs ih =>
    simp only [List.foldl_cons, List.filter_cons]
    rw [ih, stepCategory_flaggedCategories]
    cases h : isViolation u c <;> simp [h]

theorem stepResult_flaggedCategories (s : AnalyzeState) (u : ModerationCategory) :
    (stepResult s u).flaggedCategories =
      (unitViolations u).foldl insertIfAbsent s.flaggedCategories := by
  simp only [stepResult, unitViolations]
  rw [foldCat_flaggedCategories]
  congr 1
  split <;> rfl

theorem stepResult_hasViolation (s : AnalyzeState) (u : ModerationCategory) :
    (stepResult s u).hasViolation =
      (s.hasViolation || (u.flagged || categoriesOrder.any fun c => isViolation u c)) := by
  simp only [stepResult]
  rw [foldCat_hasViolation]
  have h1 : (if u.flagged then { s with hasViolation := true } else s).hasViolation =
      (s.hasViolation || u.flagged) := by
    cases hf : u.flagged <;> simp [hf]
  rw [h1, Bool.or_assoc]

theorem stepResult_maxConfidence (s : AnalyzeState) (u : ModerationCategory) :
    (stepResult s u).maxConfidence =
      (categoriesOrder.map fun c => u.category_scores.get c).foldl maxStep s.maxConfidence := by
  simp only [stepResult]
  rw [foldCat_maxConfidence]
  congr 1
  split <;> rfl

theorem foldRes_flaggedCategories (rs : List ModerationCategory) (s : AnalyzeState) :
    (rs.foldl stepResult s).flaggedCategories =
      (rs.flatMap unitViolations).foldl insertIfAbsent s.flaggedCategories := by
  induction rs generalizing s with
  | nil => rfl
  | cons u rs ih =>
    simp only [List.foldl_cons, List.flatMap_cons, List.foldl_append]
    rw [ih, stepResult_flaggedCategories]

theorem foldRes_hasViolation (rs : List ModerationCategory) (s : AnalyzeState) :
    (rs.foldl stepResult s).hasViolation =
      (s.hasViolation || rs.any fun u => u.flagged || categoriesOrder.any fun c => isViolation u c) := by
  induction rs generalizing s with
  | nil => simp
  | cons u rs ih =>
    simp only [List.foldl_cons, List.any_cons]
    rw [ih, stepResult_hasViolation]
    cases s.hasViolation <;> simp

theorem foldRes_maxConfidence (rs : List ModerationCategory) (s : AnalyzeState) :
    (rs.foldl stepResult s).maxConfidence =
      (rs.flatMap fun u => categoriesOrder.map fun c => u.category_scores.get c).foldl
        maxStep s.maxConfidence := by
  induction rs generalizing s with
  | nil => rfl
  | cons u rs ih =>
    simp only [List.foldl_cons, List.flatMap_cons, List.foldl_append]
    rw [ih, stepResult_maxConfidence]

theorem analyze_flaggedCategories (m : ModerationResult) :
    (analyzeModeration m).flaggedCategories = (violationNames m).foldl insertIfAbsent [] := by
  simp only [analyzeModeration, violationNames]
  exact foldRes_flaggedCategories m.results _

theorem analyze_isAllowed (m : ModerationResult) :
    (analyzeModeration m).isAllowed =
      !(m.results.any fun u => u.flagged || categoriesOrder.any fun c => isViolation u c) := by
  simp only [analyzeModeration]
  rw [foldRes_hasViolation]
  simp

theorem analyze_confidenceScore (m : ModerationResult) :
    (analyzeModeration m).confidenceScore = (allScores m).foldl maxStep 0 := by
  simp only [analyzeModeration, allScores]
  exact foldRes_maxConfidence m.results _

/-! ## Helper lemmas: `insertIfAbsent` folds and `dedupFirst` -/

theorem mem_insertIfAbsent {x y : String} {l : List String} :
    x ∈ insertIfAbsent l y ↔ x ∈ l ∨ x = y := by
  unfold insertIfAbsent
  split
  · rename_i h
    exact ⟨Or.inl, fun hx => hx.elim id fun e => e ▸ h⟩
  · simp [List.mem_append]

theorem mem_foldl_insertIfAbsent {x : String} (l : List String) (acc : List String) :
    x ∈ l.foldl insertIfAbsent acc ↔ x ∈ acc ∨ x ∈ l := by
  induction l generalizing acc with
  | nil => simp
  | cons y ys ih =>
    simp only [List.foldl_cons, List.mem_cons]
    rw [ih, mem_insertIfAbsent]
    tauto

theorem nodup_insertIfAbsent {l : List String} {y : String} (h : l.Nodup) :
    (insertIfAbsent l y).Nodup := by
  unfold insertIfAbsent
  split
  · exact h
  · rename_i hy
    simp [List.nodup_append, h, hy]

theorem nodup_foldl_insertIfAbsent (l : List String) (acc : List String)
    (h : acc.Nodup) : (l.foldl insertIfAbsent acc).Nodup := by
  induction l generalizing acc with
  | nil => exact h
  | cons y ys ih => exact ih _ (nodup_insertIfAbsent h)

theorem foldl_insertIfAbsent_eq (l : List String) (acc : List String)
    (h : acc.Nodup) :
    l.foldl insertIfAbsent acc =
      acc ++ dedupFirst (l.filter fun y => decide (y ∉ acc)) := by
  induction l generalizing acc with
  | nil => simp [dedupFirst]
  | cons x xs ih =>
    simp only [List.foldl_cons, List.filter_cons]
    by_cases hx : x ∈ acc
    · have hd : decide (x ∉ acc) = false := by simp [hx]
      rw [hd]
      simp only [Bool.false_eq_true, if_false]
      rw [insertIfAbsent, if_pos hx]
      exact ih acc h
    · have hd : decide (x ∉ acc) = true := by simp [hx]
      rw [hd]
      simp only [if_true]
      rw [insertIfAbsent, if_neg hx]
      have hnd : (acc ++ [x]).Nodup := by simp [List.nodup_append, h, hx]
      rw [ih (acc ++ [x]) hnd, dedupFirst, List.append_assoc, List.filter_filter]
      have hfil : List.filter (fun y => decide (y ∉ acc ++ [x])) xs =
          List.filter (fun a => decide (a ≠ x) && decide (a ∉ acc)) xs := by
        apply List.filter_congr
        intro y hy
        by_cases h1 : y ∈ acc <;> by_cases h2 : y = x <;>
          simp [h1, h2, List.mem_append]
      rw [hfil]
      rfl

/-! ## Helper lemmas: running maximum -/

theorem maxStep_eq_max (a x : ℚ) : maxStep a x = max a x := by
  unfold maxStep
  split
  · exact (max_eq_right (le_of_lt (by assumption))).symm
  · exact (max_eq_left (le_of_not_lt (by assumption))).symm

theorem foldl_maxStep_eq_foldl_max (l : List ℚ) (a : ℚ) :
    l.foldl maxStep a = l.foldl max a := by
  induction l generalizing a with
  | nil => rfl
  | cons x xs ih => simp only [List.foldl_cons, maxStep_eq_max, ih]

theorem le_foldl_max (l : List ℚ) (a : ℚ) : a ≤ l.foldl max a := by
  induction l generalizing a with
  | nil => exact le_refl a
  | cons x xs ih => exact le_trans (le_max_left a x) (ih (max a x))

theorem foldl_max_le_of_mem {x : ℚ} {l : List ℚ} (h : x ∈ l) (a : ℚ) :
    x ≤ l.foldl max a := by
  induction l generalizing a with
  | nil => cases h
  | cons y ys ih =>
    rcases List.mem_cons.mp h with rfl | hm
    · exact le_trans (le_max_right a x) (le_foldl_max ys (max a x))
    · exact ih hm (max a y)

theorem foldl_max_eq_init_or_mem (l : List ℚ) (a : ℚ) :
    l.foldl max a = a ∨ l.foldl max a ∈ l := by
  induction l generalizing a with
  | nil => exact Or.inl rfl
  | cons x xs ih =>
    simp only [List.foldl_cons, List.mem_cons]
    rcases ih (max a x) with h | h
    · rcases max_choice a x with hm | hm
      · exact Or.inl (h.trans hm)
      · exact Or.inr (Or.inl (h.trans hm))
    · exact Or.inr (Or.inr h)

/-! ## Helper lemmas: category keys and violations -/

theorem mem_categoriesOrder (c : CategoryKey) : c ∈ categoriesOrder := by
  cases c <;> decide

theorem CategoryKey.name_inj (c c' : CategoryKey) (h : c.name = c'.name) : c = c' := by
  cases c <;> cases c' <;> first | rfl | exact absurd h (by decide)

theorem categoryThreshold_eval (c : CategoryKey) :
    categoryThreshold c =
      if c.name ∈ MODERATION.HIGH_SENSITIVITY_CATEGORIES then mkRat 1 20
      else mkRat 1 10 := by
  cases c <;> decide

theorem isViolation_iff (u : ModerationCategory) (c : CategoryKey) :
    isViolation u c = true ↔
      u.categories.get c = true ∨ categoryThreshold c ≤ u.category_scores.get c := by
  simp [isViolation]

theorem mem_unitViolations {x : String} {u : ModerationCategory} :
    x ∈ unitViolations u ↔ ∃ c : CategoryKey, x = c.name ∧ isViolation u c = true := by
  unfold unitViolations
  simp only [List.mem_map, List.mem_filter]
  constructor
  · rintro ⟨c, ⟨-, hv⟩, rfl⟩
    exact ⟨c, rfl, hv⟩
  · rintro ⟨c, rfl, hv⟩
    exact ⟨c, ⟨mem_categoriesOrder c, hv⟩, rfl⟩

theorem mem_violationNames {m : ModerationResult} {c : CategoryKey} :
    c.name ∈ violationNames m ↔ ∃ u ∈ m.results, isViolation u c = true := by
  unfold violationNames
  simp only [List.mem_flatMap]
  constructor
  · rintro ⟨u, hu, hv⟩
    rcases mem_unitViolations.mp hv with ⟨c', hname, hviol⟩
    exact ⟨u, hu, (CategoryKey.name_inj c c' hname) ▸ hviol⟩
  · rintro ⟨u, hu, hv⟩
    exact ⟨u, hu, mem_unitViolations.mpr ⟨c, rfl, hv⟩⟩

theorem flaggedCategories_eq_nil_iff (m : ModerationResult) :
    (analyzeModeration m).flaggedCategories = [] ↔
      ∀ u ∈ m.results, ∀ c : CategoryKey, isViolation u c = false := by
  rw [analyze_flaggedCategories, List.eq_nil_iff_forall_not_mem]
  constructor
  · intro h u hu c
    by_contra hv
    have hv' : isViolation u c = true := by
      cases hx : isViolation u c
      · exact absurd hx hv
      · rfl
    have : c.name ∈ violationNames m := mem_violationNames.mpr ⟨u, hu, hv'⟩
    exact h c.name ((mem_foldl_insertIfAbsent _ _).mpr (Or.inr this))
  · intro h x hx
    rcases (mem_foldl_insertIfAbsent _ _).mp hx with h0 | h1
    · exact List.not_mem_nil x h0
    · unfold violationNames at h1
      rcases List.mem_flatMap.mp h1 with ⟨u, hu, hvx⟩
      rcases mem_unitViolations.mp hvx with ⟨c, rfl, hviol⟩
      rw [h u hu c] at hviol
      exact Bool.false_ne_true hviol

/-! ## Claim C1 -/

/-- C1: for every well-formed classifier response, the decision's
`flaggedCategories` is exactly the first-seen-order, duplicate-free list of
violating categories: it contains a category's key iff in some unit that
category's flag is `true` or its score is `>=` its class threshold
(`mkRat 1 20`, i.e. 0.05, for the four high-sensitivity categories and
`mkRat 1 10`, i.e. 0.10, for the other seven — equality counts as a
violation), each violating category appearing exactly once, in the order in
which its first violation is encountered. -/
theorem C1_flagged_categories (m : ModerationResult) :
    (analyzeModeration m).flaggedCategories = dedupFirst (violationNames m) ∧
    (analyzeModeration m).flaggedCategories.Nodup ∧
    ∀ c : CategoryKey,
      (c.name ∈ (analyzeModeration m).flaggedCategories ↔
        ∃ u ∈ m.results, u.categories.get c = true ∨
          (if c.name ∈ MODERATION.HIGH_SENSITIVITY_CATEGORIES then mkRat 1 20
           else mkRat 1 10) ≤ u.category_scores.get c) := by
  refine ⟨?_, ?_, ?_⟩
  · rw [analyze_flaggedCategories, foldl_insertIfAbsent_eq _ [] List.nodup_nil,
      List.nil_append]
    congr 1
    apply List.filter_eq_self.mpr
    intro a ha
    simp
  · rw [analyze_flaggedCategories]
    exact nodup_foldl_insertIfAbsent _ _ List.nodup_nil
  · intro c
    rw [analyze_flaggedCategories, mem_foldl_insertIfAbsent]
    simp only [List.not_mem_nil, false_or]
    rw [mem_violationNames]
    constructor
    · rintro ⟨u, hu, hv⟩
      refine ⟨u, hu, ?_⟩
      rcases (isViolation_iff u c).mp hv with h | h
      · exact Or.inl h
      · right
        rwa [categoryThreshold_eval] at h
    · rintro ⟨u, hu, h⟩
      refine ⟨u, hu, (isViolation_iff u c).mpr ?_⟩
      rcases h with h | h
      · exact Or.inl h
      · right
        rwa [categoryThreshold_eval]

/-! ## Claim C3 -/

def allFalseFlags : CategoryFlags :=
  ⟨false, false, false, false, false, false, false, false, false, false, false⟩

def zeroScores : CategoryScores := ⟨0, 0, 0, 0, 0, 0, 0, 0, 0, 0, 0⟩

/-- A well-formed unit whose top-level `flagged` is `true` while every
per-category flag is `false` and every score `0`. -/
def flaggedOnlyUnit : ModerationCategory :=
  { flagged := true, categories := allFalseFlags, category_scores := zeroScores }

def flaggedOnlyResult : ModerationResult :=
  { id := "modr-1", model := "omni-moderation-latest", results := [flaggedOnlyUnit] }

/-- C3 is false as stated: on a well-formed response whose single unit has
top-level `flagged = true` but no per-category violation, `analyzeModeration`
sets `hasViolation` from the unit-level flag alone, so `isAllowed = false`
while `flaggedCategories = []`. -/
theorem C3_counterexample :
    ¬ ((analyzeModeration flaggedOnlyResult).isAllowed = true ↔
        (analyzeModeration flaggedOnlyResult).flaggedCategories = []) := by
  decide

/-- C3 amended: `isAllowed = true` iff `flaggedCategories` is empty AND no
unit carries a top-level `flagged = true` (the unit-level `flagged` field
blocks the content without contributing a category). -/
theorem C3_allowed_iff_no_flags (m : ModerationResult) :
    (analyzeModeration m).isAllowed = true ↔
      ((analyzeModeration m).flaggedCategories = [] ∧
        ∀ u ∈ m.results, u.flagged = false) := by
  rw [analyze_isAllowed, Bool.not_eq_eq_eq_not, Bool.not_true, List.any_eq_false,
    flaggedCategories_eq_nil_iff]
  constructor
  · intro h
    constructor
    · intro u hu c
      have hx := h u hu
      cases hv : isViolation u c
      · rfl
      · exfalso
        apply hx
        rw [Bool.or_eq_true]
        right
        rw [List.any_eq_true]
        exact ⟨c, mem_categoriesOrder c, hv⟩
    · intro u hu
      have hx := h u hu
      cases hf : u.flagged
      · rfl
      · exfalso
        apply hx
        rw [Bool.or_eq_true]
        exact Or.inl hf
  · rintro ⟨hviol, hflag⟩ u hu
    intro hcon
    rw [Bool.or_eq_true] at hcon
    rcases hcon with hf | hany
    · rw [hflag u hu] at hf
      exact Bool.false_ne_true hf
    · rw [List.any_eq_true] at hany
      rcases hany with ⟨c, hc, hv⟩
      rw [hviol u hu c] at hv
      exact Bool.false_ne_true hv

/-! ## Claim C4 -/

theorem score_mem_allScores (m : ModerationResult) {u : ModerationCategory}
    (hu : u ∈ m.results) (c : CategoryKey) :
    u.category_scores.get c ∈ allScores m := by
  unfold allScores
  rw [List.mem_flatMap]
  exact ⟨u, hu, List.mem_map.mpr ⟨c, mem_categoriesOrder c, rfl⟩⟩

/-- C4: for every well-formed classifier response with scores in range
(`0 <= score`, as the data model prescribes probabilities), the decision's
`confidenceScore` is the maximum score observed across all 11 categories and
all units — 0 for an empty `results` list, an upper bound of every score,
and attained by some (unit, category) score when `results` is non-empty —
independently of flags and thresholds (neither occurs in the statement). -/
theorem C4_confidence_is_max (m : ModerationResult)
    (h : ∀ u ∈ m.results, ∀ c ∈ categoriesOrder, 0 ≤ u.category_scores.get c) :
    (m.results = [] → (analyzeModeration m).confidenceScore = 0) ∧
    (∀ u ∈ m.results, ∀ c : CategoryKey,
      u.category_scores.get c ≤ (analyzeModeration m).confidenceScore) ∧
    (m.results ≠ [] → ∃ u ∈ m.results, ∃ c : CategoryKey,
      (analyzeModeration m).confidenceScore = u.category_scores.get c) := by
  have hconf := analyze_confidenceScore m
  rw [foldl_maxStep_eq_foldl_max] at hconf
  refine ⟨?_, ?_, ?_⟩
  · intro hnil
    rw [hconf]
    unfold allScores
    rw [hnil]
    rfl
  · intro u hu c
    rw [hconf]
    exact foldl_max_le_of_mem (score_mem_allScores m hu c) 0
  · intro hne
    rw [hconf]
    rcases foldl_max_eq_init_or_mem (allScores m) 0 with h0 | hmem
    · rcases List.exists_mem_of_ne_nil m.results hne with ⟨u, hu⟩
      refine ⟨u, hu, CategoryKey.hate, ?_⟩
      have h1 : u.category_scores.get CategoryKey.hate ≤ (allScores m).foldl max 0 :=
        foldl_max_le_of_mem (score_mem_allScores m hu CategoryKey.hate) 0
      have h2 := h u hu CategoryKey.hate (mem_categoriesOrder _)
      rw [h0] at h1 ⊢
      exact (le_antisymm h1 h2).symm
    · unfold allScores at hmem
      rcases List.mem_flatMap.mp hmem with ⟨u, hu, hms⟩
      rcases List.mem_map.mp hms with ⟨c, hc, heq⟩
      exact ⟨u, hu, c, heq.symm⟩

/-- Unit for the C4 witness: the spec's scenario where `harassment = 0.141`
triggers the block while `sexual = 0.30` holds the global maximum. -/
def exampleScores : CategoryScores :=
  { hate := 0, hateThreatening := 0, harassment := mkRat 141 1000,
    harassmentThreatening := 0, selfHarm := 0, selfHarmIntent := 0,
    selfHarmInstructions := 0, sexual := mkRat 3 10, sexualMinors := 0,
    violence := 0, violenceGraphic := 0 }

def exampleUnit : ModerationCategory :=
  { flagged := false, categories := allFalseFlags, category_scores := exampleScores }

def exampleResult : ModerationResult :=
  { id := "modr-2", model := "omni-moderation-latest", results := [exampleUnit] }

/-- Witness for C4 at a concrete response with harassment 0.141 and sexual
0.30: the hypothesis holds and the conclusion follows by `C4_confidence_is_max`. -/
theorem C4_witness :
    (∀ u ∈ exampleResult.results, ∀ c ∈ categoriesOrder,
        0 ≤ u.category_scores.get c) ∧
    ((exampleResult.results = [] → (analyzeModeration exampleResult).confidenceScore = 0) ∧
     (∀ u ∈ exampleResult.results, ∀ c : CategoryKey,
        u.category_scores.get c ≤ (analyzeModeration exampleResult).confidenceScore) ∧
     (exampleResult.results ≠ [] → ∃ u ∈ exampleResult.results, ∃ c : CategoryKey,
        (analyzeModeration exampleResult).confidenceScore = u.category_scores.get c)) := by
  have h : ∀ u ∈ exampleResult.results, ∀ c ∈ categoriesOrder,
      0 ≤ u.category_scores.get c := by decide
  exact ⟨h, C4_confidence_is_max exampleResult h⟩

/-! ## Helper lemmas: the cache map -/

theorem mapGet_mapSet_self (m : Cache) (k : String) (v : CacheEntry) :
    mapGet (mapSet m k v) k = some v := by
  induction m with
  | nil => simp [mapSet, mapGet]
  | cons p rest ih =>
    obtain ⟨k0, v0⟩ := p
    by_cases h : k0 = k
    · simp [mapSet, h, mapGet]
    · simp [mapSet, h, mapGet, ih]

theorem mapGet_mapDelete_self (m : Cache) (k : String) :
    mapGet (mapDelete m k) k = none := by
  induction m with
  | nil => rfl
  | cons p rest ih =>
    obtain ⟨k0, v0⟩ := p
    by_cases h : k0 = k
    · simpa [mapDelete, h] using ih
    · simpa [mapDelete, List.filter_cons, h, mapGet] using ih

theorem isCacheValid_iff (now timestamp : Int) :
    isCacheValid now timestamp = true ↔ now - timestamp < 3600000 := by
  unfold isCacheValid MODERATION.CACHE_TTL_HOURS
  norm_num

/-! ## Claim C2 -/

/-- C2: whenever classification fails outright (the remote call or the
processing of its response raises, modelled by `Except.error`, reached on a
cache miss), `moderateContent` does not throw past its own boundary (it is a
total function into `ModerateOutcome`) and returns exactly the fail-closed
decision: `isAllowed = false`, `flaggedCategories = ["error"]`,
`confidenceScore = 1`. -/
theorem C2_fail_closed (now : Int) (cache : Cache) (content : String)
    (hmiss : (getCachedModeration now cache content).1 = none) :
    (moderateContent now (Except.error ()) cache content).analysis.isAllowed = false ∧
    (moderateContent now (Except.error ()) cache content).analysis.flaggedCategories
      = ["error"] ∧
    (moderateContent now (Except.error ()) cache content).analysis.confidenceScore = 1 := by
  rcases hg : getCachedModeration now cache content with ⟨o, c2⟩
  rw [hg] at hmiss
  simp only at hmiss
  subst hmiss
  simp [moderateContent, hg]

/-- Witness for C2 at `now = 0`, an empty cache and content `"hello"`. -/
theorem C2_witness :
    (getCachedModeration 0 ([] : Cache) "hello").1 = none ∧
    ((moderateContent 0 (Except.error ()) ([] : Cache) "hello").analysis.isAllowed = false ∧
     (moderateContent 0 (Except.error ()) ([] : Cache) "hello").analysis.flaggedCategories
       = ["error"] ∧
     (moderateContent 0 (Except.error ()) ([] : Cache) "hello").analysis.confidenceScore
       = 1) := by
  have h : (getCachedModeration 0 ([] : Cache) "hello").1 = none := rfl
  exact ⟨h, C2_fail_closed 0 [] "hello" h⟩

/-! ## Claim C6 -/

/-- C6: for every text and cache state, the lookup returns the stored result
iff an entry exists under the text's fingerprint with age strictly below the
TTL of 1 hour (3600000 ms); a present-but-expired entry (age `>=` TTL) is
evicted and the lookup reports absent; an absent entry reports absent and
leaves the cache unchanged.  `getCachedModeration` is a pure function of the
cache — it performs no remote call by construction. -/
theorem C6_lookup_spec (now : Int) (cache : Cache) (content : String) :
    (∀ e : CacheEntry, mapGet cache (getModerationCacheKey content) = some e →
      now - e.timestamp < 3600000 →
        getCachedModeration now cache content = (some e.result, cache)) ∧
    (∀ e : CacheEntry, mapGet cache (getModerationCacheKey content) = some e →
      3600000 ≤ now - e.timestamp →
        getCachedModeration now cache content =
          (none, mapDelete cache (getModerationCacheKey content))) ∧
    (mapGet cache (getModerationCacheKey content) = none →
      getCachedModeration now cache content = (none, cache)) ∧
    ((getCachedModeration now cache content).1.isSome = true ↔
      ∃ e : CacheEntry, mapGet cache (getModerationCacheKey content) = some e ∧
        now - e.timestamp < 3600000) := by
  have hhit : ∀ e : CacheEntry, mapGet cache (getModerationCacheKey content) = some e →
      now - e.timestamp < 3600000 →
        getCachedModeration now cache content = (some e.result, cache) := by
    intro e hget hage
    have hv : isCacheValid now e.timestamp = true := (isCacheValid_iff _ _).mpr hage
    simp [getCachedModeration, hget, hv]
  have hexp : ∀ e : CacheEntry, mapGet cache (getModerationCacheKey content) = some e →
      3600000 ≤ now - e.timestamp →
        getCachedModeration now cache content =
          (none, mapDelete cache (getModerationCacheKey content)) := by
    intro e hget hage
    have hv : isCacheValid now e.timestamp = false := by
      cases hx : isCacheValid now e.timestamp
      · rfl
      · rw [isCacheValid_iff] at hx
        omega
    simp [getCachedModeration, hget, hv]
  have habs : mapGet cache (getModerationCacheKey content) = none →
      getCachedModeration now cache content = (none, cache) := by
    intro hget
    simp [getCachedModeration, hget]
  refine ⟨hhit, hexp, habs, ?_, ?_⟩
  · intro hsome
    cases hget : mapGet cache (getModerationCacheKey content) with
    | none =>
      rw [habs hget] at hsome
      exact absurd hsome (by simp)
    | some e =>
      by_cases hage : now - e.timestamp < 3600000
      · exact ⟨e, rfl, hage⟩
      · rw [hexp e hget (le_of_not_lt hage)] at hsome
        exact absurd hsome (by simp)
  · rintro ⟨e, hget, hage⟩
    rw [hhit e hget hage]
    rfl

/-! ## Claim C5 -/

/-- C5: two immediate calls with the identical text (first call a successful
miss, TTL not elapsed between the calls) issue exactly one remote call: the
first call reports `calledRemote`, the second is served from the cache
(`calledRemote = false`, whatever its would-be fetch outcome `fetch2` is) and
returns the same decision.  Determinism of the cache key is intrinsic here:
`getModerationCacheKey` is a pure function, so the identical text maps to
the identical fingerprint in both calls. -/
theorem C5_cache_idempotence (t1 t2 : Int) (cache : Cache) (content : String)
    (r : ModerationResult) (fetch2 : Except Unit ModerationResult)
    (hmiss : (getCachedModeration t1 cache content).1 = none)
    (httl : t2 - t1 < 3600000) :
    (moderateContent t1 (Except.ok r) cache content).calledRemote = true ∧
    (moderateContent t2 fetch2
        (moderateContent t1 (Except.ok r) cache content).cache content).calledRemote
      = false ∧
    (moderateContent t2 fetch2
        (moderateContent t1 (Except.ok r) cache content).cache content).analysis
      = (moderateContent t1 (Except.ok r) cache content).analysis := by
  rcases hg : getCachedModeration t1 cache content with ⟨o, c2⟩
  rw [hg] at hmiss
  simp only at hmiss
  subst hmiss
  have h1 : moderateContent t1 (Except.ok r) cache content =
      { analysis := analyzeModeration r,
        cache := cacheModeration t1 c2 content r,
        calledRemote := true } := by
    simp [moderateContent, hg]
  have hget : mapGet (cacheModeration t1 c2 content r) (getModerationCacheKey content)
      = some { result := r, timestamp := t1 } := mapGet_mapSet_self _ _ _
  have hvalid : isCacheValid t2 t1 = true := (isCacheValid_iff _ _).mpr httl
  have h2 : getCachedModeration t2 (cacheModeration t1 c2 content r) content =
      (some r, cacheModeration t1 c2 content r) := by
    simp [getCachedModeration, hget, hvalid]
  rw [h1]
  refine ⟨rfl, ?_, ?_⟩ <;> simp [moderateContent, h2]

/-- An empty-results classifier response used by concrete cache scenarios. -/
def emptyResult : ModerationResult :=
  { id := "modr-0", model := "omni-moderation-latest", results := [] }

/-- Witness for C5: text `"hi"`, empty initial cache, calls at 0 ms and 1 ms. -/
theorem C5_witness :
    ((getCachedModeration 0 ([] : Cache) "hi").1 = none) ∧
    ((1 : Int) - 0 < 3600000) ∧
    ((moderateContent 0 (Except.ok emptyResult) ([] : Cache) "hi").calledRemote = true ∧
     (moderateContent 1 (Except.error ())
         (moderateContent 0 (Except.ok emptyResult) ([] : Cache) "hi").cache "hi").calledRemote
       = false ∧
     (moderateContent 1 (Except.error ())
         (moderateContent 0 (Except.ok emptyResult) ([] : Cache) "hi").cache "hi").analysis
       = (moderateContent 0 (Except.ok emptyResult) ([] : Cache) "hi").analysis) := by
  have h1 : (getCachedModeration 0 ([] : Cache) "hi").1 = none := rfl
  have h2 : (1 : Int) - 0 < 3600000 := by decide
  exact ⟨h1, h2, C5_cache_idempotence 0 1 [] "hi" emptyResult (Except.error ()) h1 h2⟩

/-! ## Claim C9 -/

/-- A cache holding one entry for `"a"` stored at time 0. -/
def staleCache : Cache :=
  [(getModerationCacheKey "a", { result := emptyResult, timestamp := 0 })]

/-- C9 is false as stated: at `now = 3600000` the entry for `"a"` is exactly
TTL old, so the lookup preceding the failed classification evicts it — the
fail-closed decision is returned AND the cache did change (the expired entry
for the submitted text was removed). -/
theorem C9_counterexample :
    (moderateContent 3600000 (Except.error ()) staleCache "a").analysis.flaggedCategories
      = ["error"] ∧
    (moderateContent 3600000 (Except.error ()) staleCache "a").cache ≠ staleCache := by
  decide

/-- C9 amended: when classification fails, nothing is inserted or
overwritten — the cache is exactly the post-lookup cache (whose only
possible change is the lazy eviction of an already-expired entry for the
submitted text); afterwards no entry exists under the text's fingerprint,
so a fail-closed decision is never served from the cache and a subsequent
call with the same text re-attempts remote classification. -/
theorem C9_error_no_store (now t2 : Int) (cache : Cache) (content : String)
    (fetch2 : Except Unit ModerationResult)
    (hmiss : (getCachedModeration now cache content).1 = none) :
    (moderateContent now (Except.error ()) cache content).cache
      = (getCachedModeration now cache content).2 ∧
    mapGet (moderateContent now (Except.error ()) cache content).cache
      (getModerationCacheKey content) = none ∧
    (moderateContent t2 fetch2
        (moderateContent now (Except.error ()) cache content).cache content).calledRemote
      = true := by
  rcases hg : getCachedModeration now cache content with ⟨o, c2⟩
  rw [hg] at hmiss
  simp only at hmiss
  subst hmiss
  have h1 : moderateContent now (Except.error ()) cache content =
      { analysis :=
          { isAllowed := false,
            moderationResult := { id := "error", model := MODERATION.MODEL, results := [] },
            flaggedCategories := ["error"],
            confidenceScore := 1 },
        cache := c2,
        calledRemote := true } := by
    simp [moderateContent, hg]
  have hc2 : mapGet c2 (getModerationCacheKey content) = none := by
    have hg' := hg
    cases hget : mapGet cache (getModerationCacheKey content) with
    | none =>
      have habs : getCachedModeration now cache content = (none, cache) := by
        simp [getCachedModeration, hget]
      rw [habs] at hg'
      simp only [Prod.mk.injEq, true_and] at hg'
      rw [← hg']
      exact hget
    | some e =>
      cases hv : isCacheValid now e.timestamp with
      | true =>
        have hhit : getCachedModeration now cache content = (some e.result, cache) := by
          simp [getCachedModeration, hget, hv]
        rw [hhit] at hg'
        simp only [Prod.mk.injEq] at hg'
        exact absurd hg'.1 (by simp)
      | false =>
        have hdel : getCachedModeration now cache content =
            (none, mapDelete cache (getModerationCacheKey content)) := by
          simp [getCachedModeration, hget, hv]
        rw [hdel] at hg'
        simp only [Prod.mk.injEq, true_and] at hg'
        rw [← hg']
        exact mapGet_mapDelete_self cache (getModerationCacheKey content)
  refine ⟨?_, ?_, ?_⟩
  · rw [h1]
  · rw [h1]
    exact hc2
  · rw [h1]
    have habs : getCachedModeration t2 c2 content = (none, c2) := by
      simp [getCachedModeration, hc2]
    cases fetch2 with
    | ok r => simp [moderateContent, habs]
    | error e => simp [moderateContent, habs]

/-- Witness for C9 amended: empty cache, text `"a"`, failure at 0 ms and a
retry at 5 ms. -/
theorem C9_witness :
    ((getCachedModeration 0 ([] : Cache) "a").1 = none) ∧
    ((moderateContent 0 (Except.error ()) ([] : Cache) "a").cache
       = (getCachedModeration 0 ([] : Cache) "a").2 ∧
     mapGet (moderateContent 0 (Except.error ()) ([] : Cache) "a").cache
       (getModerationCacheKey "a") = none ∧
     (moderateContent 5 (Except.error ())
         (moderateContent 0 (Except.error ()) ([] : Cache) "a").cache "a").calledRemote
       = true) := by
  have h : (getCachedModeration 0 ([] : Cache) "a").1 = none := rfl
  exact ⟨h, C9_error_no_store 0 5 [] "a" (Except.error ()) h⟩

/-! ## Claim C10 -/

theorem toInt32_range (n : Int) : -2 ^ 31 ≤ toInt32 n ∧ toInt32 n < 2 ^ 31 := by
  unfold toInt32
  have e32 : (2 : Int) ^ 32 = 4294967296 := by norm_num
  have e31 : (2 : Int) ^ 31 = 2147483648 := by norm_num
  have h1 : 0 ≤ (n + 2 ^ 31) % 2 ^ 32 := Int.emod_nonneg _ (by norm_num)
  have h2 : (n + 2 ^ 31) % 2 ^ 32 < 2 ^ 32 := Int.emod_lt_of_pos _ (by norm_num)
  rw [e32] at h2
  rw [e31]
  omega

theorem foldl_jsHashStep_range (l : List Char) (a : Int)
    (h1 : -2 ^ 31 ≤ a) (h2 : a < 2 ^ 31) :
    -2 ^ 31 ≤ l.foldl jsHashStep a ∧ l.foldl jsHashStep a < 2 ^ 31 := by
  induction l generalizing a with
  | nil => exact ⟨h1, h2⟩
  | cons c cs ih =>
    rcases toInt32_range (toInt32 (a * 32) - a + c.toNat) with ⟨g1, g2⟩
    exact ih (jsHashStep a c) g1 g2

/-- C10: the cache key function is not injective — it folds the text into a
32-bit integer (`jsHash` always lies in `[-2^31, 2^31)`) rendered in base
36, and the distinct texts `"Aa"` and `"BB"` collide; storing a decision for
one text and looking up the other within TTL returns the decision stored for
the first text. -/
theorem C10_cache_key_collision :
    (∀ s : String, -2 ^ 31 ≤ jsHash s ∧ jsHash s < 2 ^ 31) ∧
    ∃ s t : String, s ≠ t ∧ getModerationCacheKey s = getModerationCacheKey t ∧
      ∀ (r : ModerationResult) (now t1 : Int) (cache : Cache),
        now - t1 < 3600000 →
          (getCachedModeration now (cacheModeration t1 cache s r) t).1 = some r := by
  constructor
  · intro s
    exact foldl_jsHashStep_range s.data 0 (by norm_num) (by norm_num)
  refine ⟨"Aa", "BB", by decide, by decide, ?_⟩
  intro r now t1 cache h
  have hkey : getModerationCacheKey "BB" = getModerationCacheKey "Aa" := by decide
  have hget : mapGet (cacheModeration t1 cache "Aa" r) (getModerationCacheKey "BB")
      = some { result := r, timestamp := t1 } := by
    rw [hkey]
    exact mapGet_mapSet_self _ _ _
  have hvalid : isCacheValid now t1 = true := (isCacheValid_iff _ _).mpr h
  simp [getCachedModeration, hget, hvalid]

/-! ## Claim C8 -/

theorem lookup_eq_none_of_keys_ne (l : List (String × String)) (a : String)
    (h : ∀ p ∈ l, p.1 ≠ a) : l.lookup a = none := by
  induction l with
  | nil => rfl
  | cons p rest ih =>
    obtain ⟨k, v⟩ := p
    have hk : (a == k) = false := by
      have : k ≠ a := h (k, v) (List.mem_cons_self _ _)
      simp [Ne.symm this]
    simp only [List.lookup, hk]
    exact ih fun q hq => h q (List.mem_cons_of_mem _ hq)

/-- C8 is false as stated: an unknown category that names an
`Object.prototype` member does not pass through verbatim —
`displayNames["constructor"]` resolves through the prototype chain to the
inherited (truthy) constructor function, so the `|| category` fallback
never fires and the formatter renders that inherited value instead of the
string `"constructor"`. -/
theorem C8_counterexample :
    getCategoryDisplayName "constructor"
        = DisplayNameValue.protoMember "constructor" ∧
    getCategoryDisplayName "constructor" ≠ DisplayNameValue.str "constructor" := by
  exact ⟨rfl, by decide⟩

/-- C8 amended: the feedback formatter is a pure total function (a Lean
`def`, hence total and throw-free), for every engine rendering
`protoString`: any list with `isAllowed = true` yields the fixed pass
message; an empty list with `isAllowed = false` yields the fixed
generic-block message; a non-empty list yields the comma-joined rendered
display values in the flagged-for template; each of the 11 known categories
maps to its static display name; an unknown category that does not name an
inherited `Object.prototype` member — including the empty string — passes
through verbatim; a category that does name an inherited
`Object.prototype` member resolves to that inherited truthy value, rendered
by the engine's implementation-defined coercion rather than verbatim. -/
theorem C8_format_feedback_amended (protoString : String → String)
    (flaggedCategories : List String) :
    (formatModerationFeedback protoString flaggedCategories true
        = "Content passed moderation checks.") ∧
    (formatModerationFeedback protoString [] false
        = "Content flagged by moderation system.") ∧
    (flaggedCategories ≠ [] →
      formatModerationFeedback protoString flaggedCategories false =
        "Content flagged for: " ++
          String.intercalate ", "
            (flaggedCategories.map fun c =>
              displayNameToString protoString (getCategoryDisplayName c)) ++
          ". Please revise your post.") ∧
    (getCategoryDisplayName "hate" = DisplayNameValue.str "Hate Speech" ∧
     getCategoryDisplayName "hate/threatening"
       = DisplayNameValue.str "Threatening Hate Speech" ∧
     getCategoryDisplayName "harassment" = DisplayNameValue.str "Harassment" ∧
     getCategoryDisplayName "harassment/threatening"
       = DisplayNameValue.str "Threatening Harassment" ∧
     getCategoryDisplayName "self-harm" = DisplayNameValue.str "Self-Harm" ∧
     getCategoryDisplayName "self-harm/intent"
       = DisplayNameValue.str "Self-Harm Intent" ∧
     getCategoryDisplayName "self-harm/instructions"
       = DisplayNameValue.str "Self-Harm Instructions" ∧
     getCategoryDisplayName "sexual" = DisplayNameValue.str "Sexual Content" ∧
     getCategoryDisplayName "sexual/minors"
       = DisplayNameValue.str "Sexual Content Involving Minors" ∧
     getCategoryDisplayName "violence" = DisplayNameValue.str "Violence" ∧
     getCategoryDisplayName "violence/graphic"
       = DisplayNameValue.str "Graphic Violence") ∧
    (∀ category : String, category ∉ displayNames.map Prod.fst →
      category ∉ objectPrototypeKeys →
      getCategoryDisplayName category = DisplayNameValue.str category) ∧
    (getCategoryDisplayName "" = DisplayNameValue.str "") ∧
    (∀ category ∈ objectPrototypeKeys,
      getCategoryDisplayName category = DisplayNameValue.protoMember category) ∧
    (formatModerationFeedback protoString ["hate", "harassment"] false =
      "Content flagged for: Hate Speech, Harassment. Please revise your post.") ∧
    (formatModerationFeedback protoString ["unknown-category"] false =
      "Content flagged for: unknown-category. Please revise your post.") := by
  refine ⟨rfl, rfl, ?_, ?_, ?_, ?_, ?_, ?_, ?_⟩
  · intro hne
    cases flaggedCategories with
    | nil => exact absurd rfl hne
    | cons x xs => rfl
  · exact ⟨rfl, rfl, rfl, rfl, rfl, rfl, rfl, rfl, rfl, rfl, rfl⟩
  · intro category h hp
    have hall : ∀ p ∈ displayNames, p.1 ≠ category := by
      intro p hpp he
      exact h (List.mem_map.mpr ⟨p, hpp, he⟩)
    unfold getCategoryDisplayName
    rw [lookup_eq_none_of_keys_ne displayNames category hall, if_neg hp]
  · rfl
  · decide
  · rfl
  · rfl

/-! ## Claim C7: raw (untyped) classifier responses

The TS types promise fully-populated category records, but at runtime the
remote response is untrusted JSON.  `Raw*` models a response value in which
any expected field may be absent (`none` = JS `undefined`).  The transform
inside `moderateContent` (`response.results.map(result => ({...}))`) reads
`result.categories.hate` etc.: if `results` is not an array, or a unit lacks
the `categories`/`category_scores` containers, a `TypeError` is thrown
(modelled `Except.error`), which `moderateContent`'s `catch` turns into the
fail-closed decision; if only an individual category field is missing, the
property access yields `undefined`, which flows into the threshold logic,
where `if (flagged)` treats it as falsy and `undefined >= threshold` /
`undefined > maxConfidence` are both false (NaN comparisons).  No
`ClassifierError` type exists anywhere in the repository and no shape
validation is performed. -/

structure RawCategoryFlags where
  hate : Option Bool
  hateThreatening : Option Bool
  harassment : Option Bool
  harassmentThreatening : Option Bool
  selfHarm : Option Bool
  selfHarmIntent : Option Bool
  selfHarmInstructions : Option Bool
  sexual : Option Bool
  sexualMinors : Option Bool
  violence : Option Bool
  violenceGraphic : Option Bool
deriving DecidableEq, Repr

def RawCategoryFlags.get (f : RawCategoryFlags) : CategoryKey → Option Bool
  | .hate => f.hate
  | .hateThreatening => f.hateThreatening
  | .harassment => f.harassment
  | .harassmentThreatening => f.harassmentThreatening
  | .selfHarm => f.selfHarm
  | .selfHarmIntent => f.selfHarmIntent
  | .selfHarmInstructions => f.selfHarmInstructions
  | .sexual => f.sexual
  | .sexualMinors => f.sexualMinors
  | .violence => f.violence
  | .violenceGraphic => f.violenceGraphic

structure RawCategoryScores where
  hate : Option ℚ
  hateThreatening : Option ℚ
  harassment : Option ℚ
  harassmentThreatening : Option ℚ
  selfHarm : Option ℚ
  selfHarmIntent : Option ℚ
  selfHarmInstructions : Option ℚ
  sexual : Option ℚ
  sexualMinors : Option ℚ
  violence : Option ℚ
  violenceGraphic : Option ℚ
deriving DecidableEq, Repr

def RawCategoryScores.get (s : RawCategoryScores) : CategoryKey → Option ℚ
  | .hate => s.hate
  | .hateThreatening => s.hateThreatening
  | .harassment => s.harassment
  | .harassmentThreatening => s.harassmentThreatening
  | .selfHarm => s.selfHarm
  | .selfHarmIntent => s.selfHarmIntent
  | .selfHarmInstructions => s.selfHarmInstructions
  | .sexual => s.sexual
  | .sexualMinors => s.sexualMinors
  | .violence => s.violence
  | .violenceGraphic => s.violenceGraphic

/-- One element of the raw `results` array. -/
structure RawModerationUnit where
  flagged : Option Bool
  categories : Option RawCategoryFlags
  category_scores : Option RawCategoryScores
deriving DecidableEq, Repr

/-- A raw classifier response; `results = none` models a value on which
`.map` throws (not an array). -/
structure RawModerationResponse where
  id : String
  model : String
  results : Option (List RawModerationUnit)
deriving DecidableEq, Repr

/-- A unit after the transform: containers present, leaves possibly
`undefined`. -/
structure LooseModerationUnit where
  flagged : Option Bool
  categories : RawCategoryFlags
  category_scores : RawCategoryScores
deriving DecidableEq, Repr

/-- The field-by-field rebuild of one unit inside `moderateContent`:
accessing `result.categories.hate` (and the ten siblings) throws when the
container is `undefined`, otherwise copies each field (present or not). -/
def transformUnit (u : RawModerationUnit) : Except Unit LooseModerationUnit :=
  match u.categories, u.category_scores with
  | some f, some s =>
    Except.ok { flagged := u.flagged, categories := f, category_scores := s }
  | _, _ => Except.error ()

/-- `response.results.map(...)`: throws when `results` is not an array, and
propagates the first per-unit throw. -/
def transformResponse (r : RawModerationResponse) :
    Except Unit (List LooseModerationUnit) :=
  match r.results with
  | none => Except.error ()
  | some units => units.mapM transformUnit

/-- The decision fields produced by the raw evaluation path. -/
structure LooseAnalysis where
  isAllowed : Bool
  flaggedCategories : List String
  confidenceScore : ℚ
deriving DecidableEq, Repr

/-- The inner loop of `analyzeModeration` under JS runtime semantics for
possibly-`undefined` leaves. -/
def stepCategoryLoose (u : LooseModerationUnit) (s : AnalyzeState) (c : CategoryKey) :
    AnalyzeState :=
  let score := u.category_scores.get c
  let maxConfidence :=
    match score with
    | some x => if s.maxConfidence < x then x else s.maxConfidence
    | none => s.maxConfidence
  let flagged := (u.categories.get c).getD false
  let scoreGE :=
    match score with
    | some x => decide (categoryThreshold c ≤ x)
    | none => false
  if flagged || scoreGE then
    { flaggedCategories :=
        if c.name ∈ s.flaggedCategories then s.flaggedCategories
        else s.flaggedCategories ++ [c.name],
      maxConfidence := maxConfidence,
      hasViolation := true }
  else
    { s with maxConfidence := maxConfidence }

def stepResultLoose (s : AnalyzeState) (u : LooseModerationUnit) : AnalyzeState :=
  let s1 := if u.flagged.getD false then { s with hasViolation := true } else s
  categoriesOrder.foldl (stepCategoryLoose u) s1

def analyzeModerationLoose (units : List LooseModerationUnit) : LooseAnalysis :=
  let final := units.foldl stepResultLoose
    { flaggedCategories := [], maxConfidence := 0, hasViolation := false }
  { isAllowed := !final.hasViolation,
    flaggedCategories := final.flaggedCategories,
    confidenceScore := final.maxConfidence }

/-- The evaluator on a raw response: transform then threshold logic;
`Except.error` marks a thrown `TypeError` (there is no `ClassifierError`). -/
def evaluateRaw (r : RawModerationResponse) : Except Unit LooseAnalysis :=
  (transformResponse r).map analyzeModerationLoose

def failClosedLoose : LooseAnalysis :=
  { isAllowed := false, flaggedCategories := ["error"], confidenceScore := 1 }

/-- `moderateContent`'s `catch` on the raw path: any throw becomes the
fail-closed decision; nothing is re-raised. -/
def moderateRawDecision (r : RawModerationResponse) : LooseAnalysis :=
  match evaluateRaw r with
  | Except.ok a => a
  | Except.error _ => failClosedLoose

theorem transformUnit_error {u : RawModerationUnit}
    (h : u.categories = none ∨ u.category_scores = none) :
    transformUnit u = Except.error () := by
  unfold transformUnit
  cases hc : u.categories with
  | none => rfl
  | some f =>
    cases hs : u.category_scores with
    | none => rfl
    | some s =>
      rcases h with h1 | h1
      · rw [hc] at h1
        exact absurd h1 (by simp)
      · rw [hs] at h1
        exact absurd h1 (by simp)

theorem mapM_transformUnit_error (units : List RawModerationUnit)
    (h : ∃ u ∈ units, u.categories = none ∨ u.category_scores = none) :
    units.mapM transformUnit = Except.error () := by
  induction units with
  | nil =>
    rcases h with ⟨u, hu, -⟩
    exact absurd hu (List.not_mem_nil u)
  | cons x xs ih =>
    rw [List.mapM_cons]
    rcases h with ⟨u, hu, hbad⟩
    rcases List.mem_cons.mp hu with rfl | hmem
    · rw [transformUnit_error hbad]
      rfl
    · cases hx : transformUnit x with
      | error e =>
        cases e
        rfl
      | ok y =>
        have htail := ih ⟨u, hmem, hbad⟩
        simp only [htail]
        rfl

theorem mapM_transformUnit_ok (units : List RawModerationUnit)
    (h : ∀ u ∈ units, u.categories ≠ none ∧ u.category_scores ≠ none) :
    ∃ ls, units.mapM transformUnit = Except.ok ls := by
  induction units with
  | nil => exact ⟨[], rfl⟩
  | cons x xs ih =>
    rcases h x (List.mem_cons_self _ _) with ⟨h1, h2⟩
    cases hc : x.categories with
    | none => exact absurd hc h1
    | some f =>
      cases hs : x.category_scores with
      | none => exact absurd hs h2
      | some s =>
        have hx : transformUnit x = Except.ok
            { flagged := x.flagged, categories := f, category_scores := s } := by
          unfold transformUnit
          rw [hc, hs]
        rcases ih (fun u hu => h u (List.mem_cons_of_mem _ hu)) with ⟨ls, hls⟩
        refine ⟨{ flagged := x.flagged, categories := f, category_scores := s } :: ls, ?_⟩
        rw [List.mapM_cons, hx, hls]
        rfl

/-- A malformed unit: the `categories.hate` field is missing (all other
fields present, all scores 0). -/
def malformedFlags : RawCategoryFlags :=
  { hate := none, hateThreatening := some false, harassment := some false,
    harassmentThreatening := some false, selfHarm := some false,
    selfHarmIntent := some false, selfHarmInstructions := some false,
    sexual := some false, sexualMinors := some false, violence := some false,
    violenceGraphic := some false }

def malformedScores : RawCategoryScores :=
  { hate := some 0, hateThreatening := some 0, harassment := some 0,
    harassmentThreatening := some 0, selfHarm := some 0, selfHarmIntent := some 0,
    selfHarmInstructions := some 0, sexual := some 0, sexualMinors := some 0,
    violence := some 0, violenceGraphic := some 0 }

def malformedUnit : RawModerationUnit :=
  { flagged := some false, categories := some malformedFlags,
    category_scores := some malformedScores }

def malformedResponse : RawModerationResponse :=
  { id := "modr-bad", model := "omni-moderation-latest",
    results := some [malformedUnit] }

/-- C7 is false as stated: `malformedResponse` is malformed (its unit is
missing the `hate` flag), yet the evaluator raises nothing — no
`ClassifierError` type even exists in the repository — and silently proceeds
through the threshold logic with the partial data, returning an ALLOW
decision. -/
theorem C7_counterexample :
    malformedUnit.categories.map RawCategoryFlags.hate = some none ∧
    evaluateRaw malformedResponse =
      Except.ok { isAllowed := true, flaggedCategories := [], confidenceScore := 0 } := by
  constructor
  · rfl
  · rfl

/-- C7 amended: a response whose `results` is not an array, or one of whose
units lacks the whole `categories`/`category_scores` container, makes the
transform throw (`Except.error`), which the `catch` converts into the
fail-closed decision — not a raised `ClassifierError` (no such type exists);
but a unit missing only individual category fields is processed silently by
the threshold logic. -/
theorem C7_amended (r : RawModerationResponse) :
    (r.results = none → evaluateRaw r = Except.error ()) ∧
    (∀ units : List RawModerationUnit, r.results = some units →
      (∃ u ∈ units, u.categories = none ∨ u.category_scores = none) →
        evaluateRaw r = Except.error ()) ∧
    (∀ units : List RawModerationUnit, r.results = some units →
      (∀ u ∈ units, u.categories ≠ none ∧ u.category_scores ≠ none) →
        ∃ a, evaluateRaw r = Except.ok a) ∧
    (∀ e : Unit, evaluateRaw r = Except.error e →
      moderateRawDecision r = failClosedLoose) := by
  refine ⟨?_, ?_, ?_, ?_⟩
  · intro h
    unfold evaluateRaw transformResponse
    rw [h]
    rfl
  · intro units hsome hbad
    unfold evaluateRaw transformResponse
    rw [hsome]
    show Except.map analyzeModerationLoose (units.mapM transformUnit) = Except.error ()
    rw [mapM_transformUnit_error units hbad]
    rfl
  · intro units hsome hgood
    rcases mapM_transformUnit_ok units hgood with ⟨ls, hls⟩
    refine ⟨analyzeModerationLoose ls, ?_⟩
    unfold evaluateRaw transformResponse
    rw [hsome]
    show Except.map analyzeModerationLoose (units.mapM transformUnit)
      = Except.ok (analyzeModerationLoose ls)
    rw [hls]
    rfl
  · intro e h
    unfold moderateRawDecision
    rw [h]
